import Mathlib

/-!
Verification development for the Geotechnical Construction chatbot
(`app_tabs.py`): a shallow embedding of its RAG pipeline — PDF text
extraction, chunking via langchain's `RecursiveCharacterTextSplitter`,
FAISS index build-or-load, session initialization, and the chat submit
handler — together with theorems about the embedded definitions.

Text is modelled as `List Char` (a Python `str` is a character
sequence); machinery that lives outside the repository (PDF parsing,
the embedding provider, the FAISS store, the language model) is
abstracted at its call boundary exactly as the source consumes it.
-/

namespace GeoChat

/-- Text as a list of characters (a Python `str`). -/
abbrev Str := List Char

/-- Python `str.strip()`: drop leading and trailing whitespace. -/
def trimStr (s : Str) : Str :=
  ((s.dropWhile Char.isWhitespace).reverse.dropWhile Char.isWhitespace).reverse

/-- Whether `pat` is a prefix of `s` (used for substring search/split/replace). -/
def prefixOfStr : Str → Str → Bool
  | [], _ => true
  | _ :: _, [] => false
  | a :: as, b :: bs => a == b && prefixOfStr as bs

/-- Whether `pat` occurs somewhere in `s` (Python `re.search` of an escaped
literal pattern). -/
def occursIn (pat : Str) : Str → Bool
  | [] => prefixOfStr pat []
  | c :: rest => prefixOfStr pat (c :: rest) || occursIn pat rest

/-- One page of extracted text, `Document(page_content=..., metadata={source, page})`
in `load_docs_from_files`. -/
structure Doc where
  content : Str
  source : Str
  page : Nat
deriving DecidableEq

/-- One entry of the PDF directory listing: its file name and, if `PdfReader`
can read it, the per-page `extract_text() or ""` results (in page order);
`pages = none` models a file on which `PdfReader`/extraction raises. -/
structure PdfFile where
  name : Str
  pages : Option (List Str)
deriving DecidableEq

/-- The page loop of `load_docs_from_files`: `for i, page in enumerate(reader.pages)`,
keeping a page only `if text.strip()`, with metadata `page = i + 1`.
The counter `n` is the running `enumerate` index. -/
def pagesToDocs (name : Str) (n : Nat) : List Str → List Doc
  | [] => []
  | t :: rest =>
    if trimStr t ≠ [] then
      Doc.mk t name (n + 1) :: pagesToDocs name (n + 1) rest
    else
      pagesToDocs name (n + 1) rest

/-- Documents contributed by one PDF file: none when reading raised
(the `except` arm warns and continues), else the kept pages. -/
def docsFromPdf (p : PdfFile) : List Doc :=
  match p.pages with
  | none => []
  | some ps => pagesToDocs p.name 0 ps

/-- The function `load_docs_from_files(pdf_files)`: concatenation over the files, in order. -/
def load_docs_from_files (pdfs : List PdfFile) : List Doc :=
  (pdfs.map docsFromPdf).flatten

/-!
The chunker. `split_docs` uses langchain's
`RecursiveCharacterTextSplitter(chunk_size=1000, chunk_overlap=200)` with its
defaults: separators `["\n\n", "\n", " ", ""]`, `keep_separator=True`,
`strip_whitespace=True`, `length_function=len`. The definitions below embed
that splitter's `_split_text` / `_split_text_with_regex` / `_merge_splits`.
-/

/-- Scan of Python `re.split(escaped sep, text)` for a non-empty literal
separator `s0 :: srest`: the pieces between leftmost non-overlapping
occurrences, with `cur` the reversed accumulator of the current piece.
The scan consumes at least one character of the text per step, so the
structural `fuel` counter (always called with `text.length + 1`) never
reaches the dead `0` case. -/
def splitPiecesGo (s0 : Char) (srest : Str) : Nat → Str → Str → List Str
  | 0, _, cur => [cur.reverse]
  | _ + 1, [], cur => [cur.reverse]
  | fuel + 1, c :: rest, cur =>
    if prefixOfStr (s0 :: srest) (c :: rest) then
      cur.reverse :: splitPiecesGo s0 srest fuel ((c :: rest).drop (srest.length + 1)) []
    else
      splitPiecesGo s0 srest fuel rest (c :: cur)

/-- `_split_text_with_regex(text, sep, keep_separator=True)`: for a non-empty
separator, `re.split` with a captured group re-attaches each separator to the
front of the following piece; for the empty separator, `list(text)`.
Empty fragments are filtered out. -/
def splitKeep (text sep : Str) : List Str :=
  match sep with
  | [] => (text.map (fun c => [c])).filter (fun s => s ≠ [])
  | s0 :: srest =>
    match splitPiecesGo s0 srest (text.length + 1) text [] with
    | [] => []
    | p :: ps =>
      (p :: ps.map (fun q => sep ++ q)).filter (fun s => s ≠ [])

/-- The separator-selection loop at the top of `_split_text`: take the first
separator that is empty (chosen outright) or occurs in the text (chosen with
the remaining separators as `new_separators`); `last` is `separators[-1]`,
the fallback when the loop never breaks. -/
def chooseSepGo (text : Str) (last : Str) : List Str → Str × List Str
  | [] => (last, [])
  | s :: rest =>
    if s = [] then ([], [])
    else if occursIn s text then (s, rest)
    else chooseSepGo text last rest

/-- Separator selection for `_split_text`, initializing `separator = separators[-1]`
and `new_separators = []` as the Python does. -/
def chooseSep (text : Str) (seps : List Str) : Str × List Str :=
  chooseSepGo text (seps.getLastD []) seps

/-- Python `separator.join(docs)`. -/
def intercalateStr (sep : Str) : List Str → Str
  | [] => []
  | [x] => x
  | x :: y :: rest => x ++ sep ++ intercalateStr sep (y :: rest)

/-- `_join_docs(docs, separator)`: join, strip whitespace, and drop the
result when it is empty. -/
def joinDocs (docs : List Str) (sep : Str) : Option Str :=
  let text := trimStr (intercalateStr sep docs)
  if text = [] then none else some text

/-- The inner `while` of `_merge_splits`: keep popping the front of
`current_doc` (subtracting its length contribution from `total`) while the
pending accumulation is larger than the overlap, or would still overflow
`chunk_size` together with the incoming split of length `dLen`. -/
def popLoop (cs ov dLen sepLen : Nat) : List Str → Nat → List Str × Nat
  | [], total => ([], total)
  | c :: rest, total =>
    if total > ov ∨ (total + dLen + sepLen > cs ∧ total > 0) then
      popLoop cs ov dLen sepLen rest
        (total - (c.length + (if rest ≠ [] then sepLen else 0)))
    else
      (c :: rest, total)

/-- State of the `for d in splits` loop of `_merge_splits`: emitted chunks,
the pending `current_doc`, and its running `total` length. -/
structure MergeState where
  docs : List Str
  cur : List Str
  total : Nat
deriving DecidableEq

/-- One iteration of the `for d in splits` loop of `_merge_splits`. -/
def mergeOne (cs ov : Nat) (sep : Str) (st : MergeState) (d : Str) : MergeState :=
  let dLen := d.length
  let sepLen := sep.length
  let st1 :=
    if st.total + dLen + (if st.cur ≠ [] then sepLen else 0) > cs then
      if st.cur ≠ [] then
        let docs1 :=
          match joinDocs st.cur sep with
          | some doc => st.docs ++ [doc]
          | none => st.docs
        let pr := popLoop cs ov dLen sepLen st.cur st.total
        MergeState.mk docs1 pr.1 pr.2
      else st
    else st
  MergeState.mk st1.docs (st1.cur ++ [d])
    (st1.total + dLen + (if st1.cur ≠ [] then sepLen else 0))

/-- `_merge_splits(splits, separator)`: run the loop, then flush the final
`current_doc`. -/
def mergeSplits (cs ov : Nat) (sep : Str) (splits : List Str) : List Str :=
  let st := splits.foldl (mergeOne cs ov sep) (MergeState.mk [] [] 0)
  match joinDocs st.cur sep with
  | some doc => st.docs ++ [doc]
  | none => st.docs

/-- The `for s in splits` loop of `_split_text`, with `good` the accumulated
`_good_splits` and `hl` the treatment of a split at least `chunk_size` long
(append whole when no separators remain, else recurse — supplied by
`splitTextRec`). A split shorter than `chunk_size` is accumulated; otherwise
the accumulation is flushed through `_merge_splits` and `hl` handles the
long split. -/
def splitTextLoop (cs ov : Nat) (hl : Str → List Str) : List Str → List Str → List Str
  | good, [] =>
    if good ≠ [] then mergeSplits cs ov [] good else []
  | good, s :: rest =>
    if s.length < cs then
      splitTextLoop cs ov hl (good ++ [s]) rest
    else
      (if good ≠ [] then mergeSplits cs ov [] good else []) ++
      hl s ++
      splitTextLoop cs ov hl [] rest

/-- `_split_text(text, separators)` of `RecursiveCharacterTextSplitter`:
choose a separator, split keeping separators, then walk the splits —
accumulating short ones for merging and recursing (with the `new_separators`)
on long ones. `fuel` bounds the recursion depth; every recursive call
strictly shrinks the separator list, so `fuel = separators.length + 1`
never reaches the dead `0` case. With `keep_separator=True` the merge
separator is `""`. -/
def splitTextRec (cs ov : Nat) : Nat → List Str → Str → List Str
  | 0, _, _ => []
  | fuel + 1, seps, text =>
    let sr := chooseSep text seps
    splitTextLoop cs ov
      (fun s => if sr.2 = [] then [s] else splitTextRec cs ov fuel sr.2 s)
      [] (splitKeep text sr.1)

/-- The default separator list of `RecursiveCharacterTextSplitter`. -/
def SEPARATORS : List Str := [['\n', '\n'], ['\n'], [' '], []]

/-- `split_text(text)` for the splitter configured in `split_docs`:
`chunk_size=1000`, `chunk_overlap=200`, default separators. -/
def splitTextChunks (text : Str) : List Str :=
  splitTextRec 1000 200 (SEPARATORS.length + 1) SEPARATORS text

/-- The function `split_docs(docs)` = `splitter.split_documents(docs)`: chunk each
document's text and copy its metadata onto every chunk. -/
def split_docs (docs : List Doc) : List Doc :=
  (docs.map (fun d => (splitTextChunks d.content).map
    (fun c => Doc.mk c d.source d.page))).flatten

/-- Modelled from the spec (section 4.2's words, for comparison with the code's
chunker in claim C2): slide a window of `maxChars` across the text, advancing
by `step = maxChars - overlapChars` per step. -/
def specSlidingWindowChunks (maxChars step : Nat) (t : Str) : List Str :=
  if t = [] then []
  else (List.range ((t.length + step - 1) / step)).map
    (fun i => (t.drop (i * step)).take maxChars)

/-- Whether every pair of consecutive chunks shares exactly `n` characters:
the last `n` characters of each chunk equal the first `n` of the next. -/
def consecShare (n : Nat) : List Str → Bool
  | a :: b :: rest =>
    (a.drop (a.length - n) == b.take n) && consecShare n (b :: rest)
  | _ => true

/-- A 1201-character page: 600 `a`s, one space, 600 `b`s. On it the code's
splitter breaks at the space (chunks of 600 and 600, sharing nothing),
while a 1000-wide window advancing by 800 would give chunks of 1000
and 401 sharing exactly 200 characters. -/
def samplePageText : Str :=
  List.replicate 600 'a' ++ ' ' :: List.replicate 600 'b'

/-!
The index builder, `build_or_load_vectorstore`, and its filesystem
environment. The FAISS vector store is abstracted as the list of chunks it
holds (the embedding provider and vector geometry live outside the repo);
`FAISS.load_local` on an existing directory either yields a store or raises,
which `_load_faiss` forwards (its `except TypeError` arm merely retries the
call with an older signature, same outcome).
-/

/-- A FAISS vector store, abstracted as the chunk documents it indexes. -/
abbrev Index := List Doc

/-- The metadata record written next to the persisted index:
`{"built_at": ..., "pdf_files": [...]}`. -/
structure Metadata where
  built_at : Str
  pdf_files : List Str
deriving DecidableEq

/-- Filesystem/environment snapshot consumed by `build_or_load_vectorstore`:
whether `os.path.isdir(VECTORSTORE_DIR)` holds, what `_load_faiss` would
produce on that directory (`Except.error` models a raised exception), the
current working directory's file entries, and `datetime.now()`. -/
structure Env where
  vsExists : Bool
  loadResult : Except Str Index
  cwdEntries : List PdfFile
  now : Str

/-- Python `f.lower().endswith(".pdf")`. -/
def isPdfName (n : Str) : Bool :=
  prefixOfStr ((".pdf").data).reverse (n.map Char.toLower).reverse

/-- Lexicographic character-list order, Python string `sorted` order. -/
def lexLe : Str → Str → Bool
  | [], _ => true
  | _ :: _, [] => false
  | a :: as, b :: bs =>
    if a == b then lexLe as bs else a < b

/-- Insertion step of sorting the directory listing. -/
def insertByName (p : PdfFile) : List PdfFile → List PdfFile
  | [] => [p]
  | q :: rest =>
    if lexLe p.name q.name then p :: q :: rest else q :: insertByName p rest

/-- `sorted(os.listdir())` on the modelled entries. -/
def sortByName (l : List PdfFile) : List PdfFile :=
  l.foldr insertByName []

/-- The function `list_pdfs_in_cwd()`: sorted directory listing filtered to files whose
lowercased name ends in `.pdf`. -/
def list_pdfs (entries : List PdfFile) : List PdfFile :=
  (sortByName entries).filter (fun p => isPdfName p.name)

/-- Whether no PDF page yields non-whitespace text: every readable page of
every listed file strips to empty (an unreadable file contributes no pages). -/
def noExtractableTextB (pdfs : List PdfFile) : Bool :=
  pdfs.all (fun p => (p.pages.getD []).all (fun t => (trimStr t).isEmpty))

/-- What one call of `build_or_load_vectorstore` produces: its return value
(`Except.error` models an uncaught exception, `Except.ok none` the `None`
returns) and what it persisted (`save_local` result and metadata file),
if anything. -/
structure BuildOutcome where
  result : Except Str (Option Index)
  savedIndex : Option Index
  savedMetadata : Option Metadata

/-- The function `build_or_load_vectorstore(api_key)`. The `api_key` only
parametrizes the external embedding provider and does not influence the
control flow modelled here. -/
def buildOrLoad (env : Env) : BuildOutcome :=
  if env.vsExists then
    BuildOutcome.mk (env.loadResult.map some) none none
  else
    let pdfs := list_pdfs env.cwdEntries
    if pdfs = [] then BuildOutcome.mk (Except.ok none) none none
    else
      let docs := load_docs_from_files pdfs
      if docs = [] then BuildOutcome.mk (Except.ok none) none none
      else
        let chunks := split_docs docs
        BuildOutcome.mk (Except.ok (some chunks)) (some chunks)
          (some (Metadata.mk env.now (pdfs.map PdfFile.name)))

/-!
Conversation chain, session state, and the chat submit handler.
-/

/-- The `ConversationalRetrievalChain` built by `make_chain`: an LLM at
temperature 0 on `gpt-4o-mini`, a buffer memory, and a retriever over the
vector store with `k = 3`. The chain's call behaviour (the language-model
round trip) is an external collaborator, modelled by `LlmOracle` below. -/
structure Chain where
  index : Index
  k : Nat
  model : Str
  temperature : Int
  apiKey : Str
deriving DecidableEq

/-- The function `make_chain(vectorstore, api_key)`. -/
def make_chain (vs : Index) (api_key : Str) : Chain :=
  Chain.mk vs 3 (("gpt-4o-mini").data) 0 api_key

/-- The function `get_api_key()`: session override if non-empty (Python `or`), else the
environment variable, then `.strip()`. -/
def get_api_key (override envKey : Str) : Str :=
  trimStr (if override ≠ [] then override else envKey)

/-- The RAG part of `st.session_state`: the conversation chain (if built)
and the `rag_status` string. -/
structure RagSession where
  conversation : Option Chain
  rag_status : Str
deriving DecidableEq

/-- The function `ensure_conversation()`: no-op when a chain exists; otherwise
recompute from the credential and `build_or_load_vectorstore`. An exception
raised by the load propagates (`Except.error`). -/
def ensure_conversation (override envKey : Str) (env : Env) (s : RagSession) :
    Except Str RagSession :=
  if s.conversation.isSome then Except.ok s
  else
    let key := get_api_key override envKey
    if key = [] then Except.ok (RagSession.mk s.conversation (("missing_key").data))
    else
      match (buildOrLoad env).result with
      | Except.error e => Except.error e
      | Except.ok none => Except.ok (RagSession.mk s.conversation (("no_pdfs").data))
      | Except.ok (some vs) =>
        Except.ok (RagSession.mk (some (make_chain vs key)) (("ready").data))

/-- Iterated `ensure_conversation` (an app rerun calls it on every render). -/
def ensureIter (override envKey : Str) (env : Env) : Nat → RagSession → Except Str RagSession
  | 0, s => Except.ok s
  | n + 1, s =>
    match ensure_conversation override envKey env s with
    | Except.error e => Except.error e
    | Except.ok s1 => ensureIter override envKey env n s1

/-- The Rebuild Knowledge Base button handler: with no credential it only
shows an error; otherwise it deletes the persisted index directory and calls
`build_or_load_vectorstore`, installing a fresh chain on success and leaving
the session unchanged (plus an error banner) on a `None` build. -/
def rebuild_handler (override envKey : Str) (env : Env) (s : RagSession) :
    Except Str RagSession :=
  let key := get_api_key override envKey
  if key = [] then Except.ok s
  else
    match (buildOrLoad (Env.mk false env.loadResult env.cwdEntries env.now)).result with
    | Except.error e => Except.error e
    | Except.ok (some vs) =>
      Except.ok (RagSession.mk (some (make_chain vs key)) (("ready").data))
    | Except.ok none => Except.ok s

/-- One entry of `st.session_state.messages`. -/
structure Msg where
  role : Str
  content : Str
deriving DecidableEq

/-- The chat-facing part of `st.session_state`. -/
structure Session where
  messages : List Msg
  conversation : Option Chain
  rag_status : Str
deriving DecidableEq

/-- Python `text.replace(p0 :: prest, rep)` scanning left to right over
non-overlapping occurrences. Each step consumes at least one character, so
the structural `fuel` counter (always called with `text.length`) exhausts
exactly when the text does. -/
def replaceGo (p0 : Char) (prest rep : Str) : Nat → Str → Str
  | 0, t => t
  | _ + 1, [] => []
  | fuel + 1, c :: rest =>
    if prefixOfStr (p0 :: prest) (c :: rest) then
      rep ++ replaceGo p0 prest rep fuel ((c :: rest).drop (prest.length + 1))
    else
      c :: replaceGo p0 prest rep fuel rest

/-- Python `s.replace(pat, rep)` for the non-empty patterns used by
`tidy_response`. -/
def replaceStr (s pat rep : Str) : Str :=
  match pat with
  | [] => s
  | p0 :: prest => replaceGo p0 prest rep s.length s

/-- The function `tidy_response(text)`: empty stays empty; otherwise strip, then the
three `replace` passes. -/
def tidy_response (text : Str) : Str :=
  if text = [] then []
  else
    let t := trimStr text
    replaceStr
      (replaceStr (replaceStr t (("\n-").data) (("\n\n-").data))
        (("** ").data) (("**").data))
      ((" **").data) (("**").data)

/-- The guidance message for `status == "missing_key"`. -/
def MSG_KEY : Str :=
  ("⚠️ RAG unavailable: Please set your OPENAI_API_KEY in the Settings tab.").data

/-- The guidance message for `status == "no_pdfs"`. -/
def MSG_PDF : Str :=
  ("⚠️ RAG unavailable: Please add PDFs in the Knowledge Base tab and rebuild the index.").data

/-- The generic not-ready guidance message. -/
def MSG_GENERIC : Str :=
  ("⚠️ RAG not ready. Please check Settings and Knowledge Base.").data

/-- The not-ready reply selection of the submit handler's `else` branch. -/
def guidanceFor (status : Str) : Str :=
  if status = ("missing_key").data then MSG_KEY
  else if status = ("no_pdfs").data then MSG_PDF
  else MSG_GENERIC

/-- Behaviour of the external `convo({"question": q})` round trip for a given
chain: an exception (`Except.error e`, message `str(e)`), or a result dict
whose optional `"answer"` entry is modelled by the inner `Option`. -/
abbrev LlmOracle := Chain → Str → Except Str (Option Str)

/-- The chat submit handler (`if submitted and q.strip(): ...`). Returns the
updated session and whether the chain (the language model) was called.
The handler appends the user's question, then either calls the chain —
catching any exception into an inline `(RAG error: ...)` answer — or picks
the status-dependent guidance message, and appends the tidied answer. -/
def submitHandler (llm : LlmOracle) (submitted : Bool) (q : Str) (s : Session) :
    Session × Bool :=
  if submitted = true ∧ trimStr q ≠ [] then
    let msgs1 := s.messages ++ [Msg.mk (("user").data) q]
    match s.conversation with
    | some chain =>
      let answer :=
        match llm chain q with
        | Except.ok r => r.getD (("(no answer returned)").data)
        | Except.error e => ("(RAG error: ").data ++ e ++ [')']
      (Session.mk (msgs1 ++ [Msg.mk (("assistant").data) (tidy_response answer)])
        s.conversation s.rag_status, true)
    | none =>
      let answer := guidanceFor s.rag_status
      (Session.mk (msgs1 ++ [Msg.mk (("assistant").data) (tidy_response answer)])
        s.conversation s.rag_status, false)
  else (s, false)

/-- Invariant of the `_merge_splits` loop state: every emitted chunk fits in
`cs`, and `total` is exactly the summed length of `current_doc`, itself at
most `cs`. -/
def MergeInv (cs : Nat) (st : MergeState) : Prop :=
  (∀ c ∈ st.docs, c.length ≤ cs) ∧
  st.total = (st.cur.map List.length).sum ∧
  st.total ≤ cs

/-!
Helper lemmas.
-/

theorem length_dropWhile_le (p : Char → Bool) (l : Str) :
    (l.dropWhile p).length ≤ l.length := by
  induction l with
  | nil => simp
  | cons c rest ih =>
    by_cases h : p c
    · rw [List.dropWhile_cons, if_pos h]
      exact Nat.le_trans ih (by simp)
    · rw [List.dropWhile_cons, if_neg h]

theorem trimStr_length_le (s : Str) : (trimStr s).length ≤ s.length := by
  unfold trimStr
  have h1 := length_dropWhile_le Char.isWhitespace s
  have h2 := length_dropWhile_le Char.isWhitespace (s.dropWhile Char.isWhitespace).reverse
  simp only [List.length_reverse] at h1 h2 ⊢
  omega

theorem intercalateStr_nil_length (l : List Str) :
    (intercalateStr [] l).length = (l.map List.length).sum := by
  induction l with
  | nil => simp [intercalateStr]
  | cons x rest ih =>
    cases rest with
    | nil => simp [intercalateStr]
    | cons y t =>
      simp only [intercalateStr, List.length_append, List.length_nil,
        List.map_cons, List.sum_cons] at ih ⊢
      omega

theorem joinDocs_length (l : List Str) (doc : Str) (h : joinDocs l [] = some doc) :
    doc.length ≤ (l.map List.length).sum := by
  unfold joinDocs at h
  by_cases he : trimStr (intercalateStr [] l) = []
  · simp [he] at h
  · simp only [he, if_neg, if_false, reduceIte] at h
    have hle := trimStr_length_le (intercalateStr [] l)
    rw [intercalateStr_nil_length] at hle
    cases h
    exact hle

theorem popLoop_spec (cs ov dLen : Nat) (cur : List Str) (total : Nat)
    (h : total = (cur.map List.length).sum) :
    (popLoop cs ov dLen 0 cur total).2 =
      (((popLoop cs ov dLen 0 cur total).1).map List.length).sum ∧
    (popLoop cs ov dLen 0 cur total).2 ≤ ov ∧
    ((popLoop cs ov dLen 0 cur total).2 + dLen ≤ cs ∨
      (popLoop cs ov dLen 0 cur total).2 = 0) := by
  induction cur generalizing total with
  | nil =>
    simp only [List.map_nil, List.sum_nil] at h
    subst h
    simp [popLoop]
  | cons c rest ih =>
    by_cases hc : total > ov ∨ (total + dLen + 0 > cs ∧ total > 0)
    · rw [popLoop, if_pos hc]
      apply ih
      simp only [List.map_cons, List.sum_cons] at h
      simp only [ite_self, Nat.add_zero]
      omega
    · rw [popLoop, if_neg hc]
      refine ⟨h, ?_, ?_⟩ <;> [skip; skip] <;> omega

theorem mergeOne_inv (cs ov : Nat) (st : MergeState) (d : Str)
    (hd : d.length < cs) (h : MergeInv cs st) :
    MergeInv cs (mergeOne cs ov [] st d) := by
  obtain ⟨hdocs, hsum, htot⟩ := h
  unfold mergeOne
  simp only [List.length_nil, ite_self, Nat.add_zero]
  by_cases hbig : st.total + d.length > cs
  · rw [if_pos hbig]
    by_cases hcur : st.cur ≠ []
    · rw [if_pos hcur]
      have hps := popLoop_spec cs ov d.length st.cur st.total hsum
      refine ⟨?_, ?_, ?_⟩
      · intro c hc
        simp only at hc
        cases hj : joinDocs st.cur [] with
        | none => simp [hj] at hc; exact hdocs c hc
        | some doc =>
          simp [hj] at hc
          rcases hc with hc | rfl
          · exact hdocs c hc
          · have := joinDocs_length st.cur c hj
            omega
      · simp only [List.map_append, List.sum_append, List.map_cons,
          List.map_nil, List.sum_cons, List.sum_nil]
        simp only [List.length_nil, ite_self, Nat.add_zero] at hps ⊢
        omega
      · simp only [List.length_nil, ite_self, Nat.add_zero] at hps ⊢
        omega
    · rw [if_neg hcur]
      push_neg at hcur
      rw [hcur, List.map_nil, List.sum_nil] at hsum
      refine ⟨hdocs, ?_, ?_⟩
      · dsimp only
        simp only [List.map_append, List.sum_append, List.map_cons,
          List.map_nil, List.sum_cons, List.sum_nil]
        omega
      · dsimp only
        omega
  · rw [if_neg hbig]
    refine ⟨hdocs, ?_, ?_⟩
    · dsimp only
      simp only [List.map_append, List.sum_append, List.map_cons,
        List.map_nil, List.sum_cons, List.sum_nil]
      omega
    · dsimp only
      omega

theorem foldl_mergeOne_inv (cs ov : Nat) (splits : List Str) :
    ∀ st, MergeInv cs st → (∀ s ∈ splits, s.length < cs) →
      MergeInv cs (splits.foldl (mergeOne cs ov []) st) := by
  induction splits with
  | nil => intro st h _; simpa using h
  | cons s rest ih =>
    intro st h hs
    simp only [List.foldl_cons]
    exact ih _ (mergeOne_inv cs ov st s (hs s (by simp)) h)
      (fun x hx => hs x (by simp [hx]))

theorem mergeSplits_bound (cs ov : Nat) (splits : List Str)
    (hs : ∀ s ∈ splits, s.length < cs) :
    ∀ c ∈ mergeSplits cs ov [] splits, c.length ≤ cs := by
  intro c hc
  unfold mergeSplits at hc
  have hinv := foldl_mergeOne_inv cs ov splits (MergeState.mk [] [] 0)
    ⟨by simp, by simp, by simp⟩ hs
  obtain ⟨hdocs, hsum, htot⟩ := hinv
  cases hj : joinDocs (splits.foldl (mergeOne cs ov []) (MergeState.mk [] [] 0)).cur [] with
  | none => simp only [hj] at hc; exact hdocs c hc
  | some doc =>
    simp only [hj] at hc
    rcases List.mem_append.mp hc with hc | hc
    · exact hdocs c hc
    · have hcd : c = doc := by simpa using hc
      subst hcd
      have := joinDocs_length _ c hj
      omega

theorem chooseSepGo_spec (text last : Str) (seps : List Str) (h : [] ∈ seps) :
    ((chooseSepGo text last seps).2 = [] → (chooseSepGo text last seps).1 = []) ∧
    ([] ∈ (chooseSepGo text last seps).2 ∨ (chooseSepGo text last seps).2 = []) := by
  induction seps with
  | nil => simp at h
  | cons s rest ih =>
    by_cases hs : s = []
    · subst hs
      simp [chooseSepGo]
    · have hrest : ([] : Str) ∈ rest := by
        rcases List.mem_cons.mp h with h1 | h1
        · exact absurd h1.symm hs
        · exact h1
      by_cases ho : occursIn s text = true
      · rw [chooseSepGo, if_neg hs, if_pos ho]
        refine ⟨?_, Or.inl hrest⟩
        intro hr
        dsimp only at hr
        rw [hr] at hrest
        simp at hrest
      · rw [chooseSepGo, if_neg hs, if_neg ho]
        exact ih hrest

theorem splitKeep_nil_sep (text : Str) :
    ∀ s ∈ splitKeep text [], s.length = 1 := by
  intro s hs
  unfold splitKeep at hs
  rw [List.mem_filter] at hs
  obtain ⟨hs1, _⟩ := hs
  rw [List.mem_map] at hs1
  obtain ⟨c, _, rfl⟩ := hs1
  rfl

theorem splitTextLoop_bound (cs ov : Nat) (hl : Str → List Str) :
    ∀ splits good, (∀ g ∈ good, g.length < cs) →
      (∀ s ∈ splits, s.length < cs ∨ ∀ c ∈ hl s, c.length ≤ cs) →
      ∀ c ∈ splitTextLoop cs ov hl good splits, c.length ≤ cs := by
  intro splits
  induction splits with
  | nil =>
    intro good hg _ c hc
    rw [splitTextLoop] at hc
    by_cases h : good ≠ []
    · rw [if_pos h] at hc
      exact mergeSplits_bound cs ov good hg c hc
    · rw [if_neg h] at hc
      simp at hc
  | cons s rest ih =>
    intro good hg hs c hc
    rw [splitTextLoop] at hc
    by_cases hlen : s.length < cs
    · rw [if_pos hlen] at hc
      refine ih (good ++ [s]) ?_ (fun x hx => hs x (by simp [hx])) c hc
      intro g hgm
      rcases List.mem_append.mp hgm with hgm | hgm
      · exact hg g hgm
      · rw [List.mem_singleton] at hgm
        subst hgm
        exact hlen
    · rw [if_neg hlen] at hc
      rcases List.mem_append.mp hc with hc1 | hc1
      · rcases List.mem_append.mp hc1 with hc2 | hc2
        · by_cases h : good ≠ []
          · rw [if_pos h] at hc2
            exact mergeSplits_bound cs ov good hg c hc2
          · rw [if_neg h] at hc2
            simp at hc2
        · rcases hs s (by simp) with h1 | h1
          · exact absurd h1 hlen
          · exact h1 c hc2
      · exact ih [] (by simp) (fun x hx => hs x (by simp [hx])) c hc1

theorem splitTextRec_bound (cs ov : Nat) (hcs : 1 < cs) :
    ∀ fuel seps text, (([] : Str) ∈ seps ∨ seps = []) →
      ∀ c ∈ splitTextRec cs ov fuel seps text, c.length ≤ cs := by
  intro fuel
  induction fuel with
  | zero =>
    intro seps text _ c hc
    simp [splitTextRec] at hc
  | succ fuel ih =>
    intro seps text hseps c hc
    rw [splitTextRec] at hc
    rcases hseps with hin | rfl
    · have hspec := chooseSepGo_spec text (seps.getLastD []) seps hin
      rw [show chooseSep text seps = chooseSepGo text (seps.getLastD []) seps from rfl] at hc
      by_cases h2 : (chooseSepGo text (seps.getLastD []) seps).2 = []
      · have h1 : (chooseSepGo text (seps.getLastD []) seps).1 = [] := hspec.1 h2
        rw [h1] at hc
        refine splitTextLoop_bound cs ov _ _ [] (by simp) ?_ c hc
        intro s hsm
        exact Or.inl (by rw [splitKeep_nil_sep text s hsm]; omega)
      · have hin2 : ([] : Str) ∈ (chooseSepGo text (seps.getLastD []) seps).2 :=
          hspec.2.resolve_right h2
        refine splitTextLoop_bound cs ov _ _ [] (by simp) ?_ c hc
        intro s _
        refine Or.inr ?_
        intro c2 hc2
        rw [if_neg h2] at hc2
        exact ih _ s (Or.inl hin2) c2 hc2
    · rw [show chooseSep text [] = ([], []) from rfl] at hc
      refine splitTextLoop_bound cs ov _ _ [] (by simp) ?_ c hc
      intro s hsm
      exact Or.inl (by rw [splitKeep_nil_sep text s hsm]; omega)

theorem splitTextChunks_bound (text : Str) :
    ∀ c ∈ splitTextChunks text, c.length ≤ 1000 :=
  splitTextRec_bound 1000 200 (by omega) (SEPARATORS.length + 1) SEPARATORS text
    (Or.inl (by simp [SEPARATORS]))

theorem mem_split_docs (docs : List Doc) (c : Doc) (hc : c ∈ split_docs docs) :
    ∃ d ∈ docs, c.content ∈ splitTextChunks d.content ∧
      c.source = d.source ∧ c.page = d.page := by
  unfold split_docs at hc
  rw [List.mem_flatten] at hc
  obtain ⟨l, hl, hcl⟩ := hc
  rw [List.mem_map] at hl
  obtain ⟨d, hd, rfl⟩ := hl
  rw [List.mem_map] at hcl
  obtain ⟨ch, hch, rfl⟩ := hcl
  exact ⟨d, hd, hch, rfl, rfl⟩

theorem pagesToDocs_eq_nil_iff (name : Str) (n : Nat) (ps : List Str) :
    pagesToDocs name n ps = [] ↔ ps.all (fun t => (trimStr t).isEmpty) = true := by
  induction ps generalizing n with
  | nil => simp [pagesToDocs]
  | cons t rest ih =>
    by_cases h : trimStr t ≠ []
    · rw [pagesToDocs, if_pos h]
      simp only [List.all_cons, Bool.and_eq_true, List.isEmpty_iff]
      constructor
      · intro hfalse
        exact absurd hfalse (List.cons_ne_nil _ _)
      · rintro ⟨h1, _⟩
        exact absurd h1 h
    · rw [pagesToDocs, if_neg h]
      push_neg at h
      simp only [List.all_cons, Bool.and_eq_true, List.isEmpty_iff, h, true_and]
      exact ih (n + 1)

theorem load_docs_eq_nil_iff (pdfs : List PdfFile) :
    load_docs_from_files pdfs = [] ↔ noExtractableTextB pdfs = true := by
  unfold load_docs_from_files noExtractableTextB
  rw [List.flatten_eq_nil_iff]
  simp only [List.mem_map, forall_exists_index, and_imp, List.all_eq_true]
  constructor
  · intro h p hp
    have hdp := h (docsFromPdf p) p hp rfl
    cases hpp : p.pages with
    | none => simp [hpp]
    | some ps =>
      have hdp2 : pagesToDocs p.name 0 ps = [] := by
        rw [docsFromPdf, hpp] at hdp
        exact hdp
      simp only [Option.getD_some]
      intro t ht
      have := (pagesToDocs_eq_nil_iff p.name 0 ps).mp hdp2
      rw [List.all_eq_true] at this
      exact this t ht
  · intro h l p hp rfl2
    subst rfl2
    have hpa := h p hp
    cases hpp : p.pages with
    | none => rw [docsFromPdf, hpp]
    | some ps =>
      rw [docsFromPdf, hpp]
      rw [pagesToDocs_eq_nil_iff]
      rw [hpp] at hpa
      simpa using hpa

theorem pagesToDocs_mem (name : Str) (n : Nat) (ps : List Str) (d : Doc)
    (hd : d ∈ pagesToDocs name n ps) :
    d.source = name ∧ trimStr d.content ≠ [] ∧ n + 1 ≤ d.page ∧
      d.page ≤ n + ps.length ∧ ps[d.page - n - 1]? = some d.content := by
  induction ps generalizing n with
  | nil => simp [pagesToDocs] at hd
  | cons t rest ih =>
    rw [pagesToDocs] at hd
    by_cases h : trimStr t ≠ []
    · rw [if_pos h] at hd
      rcases List.mem_cons.mp hd with rfl | hd2
      · refine ⟨rfl, h, by dsimp only; omega, by dsimp only; simp, ?_⟩
        dsimp only
        have hk : n + 1 - n - 1 = 0 := by omega
        rw [hk]
        simp
      · obtain ⟨h1, h2, h3, h4, h5⟩ := ih (n + 1) hd2
        refine ⟨h1, h2, by omega, by simp only [List.length_cons]; omega, ?_⟩
        have hk : d.page - n - 1 = (d.page - n - 2) + 1 := by omega
        rw [hk, List.getElem?_cons_succ]
        have hk2 : d.page - (n + 1) - 1 = d.page - n - 2 := by omega
        rw [hk2] at h5
        exact h5
    · rw [if_neg h] at hd
      obtain ⟨h1, h2, h3, h4, h5⟩ := ih (n + 1) hd
      refine ⟨h1, h2, by omega, by simp only [List.length_cons]; omega, ?_⟩
      have hk : d.page - n - 1 = (d.page - n - 2) + 1 := by omega
      rw [hk, List.getElem?_cons_succ]
      have hk2 : d.page - (n + 1) - 1 = d.page - n - 2 := by omega
      rw [hk2] at h5
      exact h5

theorem pagesToDocs_length (name : Str) (n : Nat) (ps : List Str) :
    (pagesToDocs name n ps).length =
      (ps.filter (fun t => !(trimStr t).isEmpty)).length := by
  induction ps generalizing n with
  | nil => rfl
  | cons t rest ih =>
    by_cases h : trimStr t ≠ []
    · rw [pagesToDocs, if_pos h]
      have hb : (!(trimStr t).isEmpty) = true := by
        cases hx : (trimStr t).isEmpty
        · rfl
        · exact absurd (List.isEmpty_iff.mp hx) h
      simp only [List.filter_cons, hb, if_true, List.length_cons]
      rw [ih (n + 1)]
    · rw [pagesToDocs, if_neg h]
      push_neg at h
      have hb : (!(trimStr t).isEmpty) = false := by
        rw [h]
        rfl
      simp only [List.filter_cons, hb, Bool.false_eq_true, if_false]
      exact ih (n + 1)

theorem pagesToDocs_pairwise (name : Str) (n : Nat) (ps : List Str) :
    (pagesToDocs name n ps).Pairwise (fun a b => a.page < b.page) := by
  induction ps generalizing n with
  | nil => simp [pagesToDocs]
  | cons t rest ih =>
    by_cases h : trimStr t ≠ []
    · rw [pagesToDocs, if_pos h]
      refine List.Pairwise.cons ?_ (ih (n + 1))
      intro b hb
      have := (pagesToDocs_mem name (n + 1) rest b hb).2.2.1
      simp only
      omega
    · rw [pagesToDocs, if_neg h]
      exact ih (n + 1)

theorem tidy_guidance (status : Str) :
    tidy_response (guidanceFor status) = guidanceFor status := by
  unfold guidanceFor
  by_cases h1 : status = ("missing_key").data
  · rw [if_pos h1]
    decide
  · rw [if_neg h1]
    by_cases h2 : status = ("no_pdfs").data
    · rw [if_pos h2]
      decide
    · rw [if_neg h2]
      decide

theorem submitHandler_some (llm : LlmOracle) (q : Str) (s : Session) (chain : Chain)
    (hq : trimStr q ≠ []) (hc : s.conversation = some chain) :
    submitHandler llm true q s =
      (Session.mk (s.messages ++ [Msg.mk (("user").data) q,
        Msg.mk (("assistant").data) (tidy_response
          (match llm chain q with
           | Except.ok r => r.getD (("(no answer returned)").data)
           | Except.error e2 => ("(RAG error: ").data ++ e2 ++ [')']))])
        s.conversation s.rag_status, true) := by
  unfold submitHandler
  rw [if_pos ⟨rfl, hq⟩, hc]
  dsimp only
  simp [List.append_assoc]

theorem submitHandler_none (llm : LlmOracle) (q : Str) (s : Session)
    (hq : trimStr q ≠ []) (hc : s.conversation = none) :
    submitHandler llm true q s =
      (Session.mk (s.messages ++ [Msg.mk (("user").data) q,
        Msg.mk (("assistant").data) (guidanceFor s.rag_status)])
        s.conversation s.rag_status, false) := by
  unfold submitHandler
  rw [if_pos ⟨rfl, hq⟩, hc]
  dsimp only
  rw [tidy_guidance]
  simp [List.append_assoc]

theorem ensure_of_some (o ek : Str) (env : Env) (s : RagSession)
    (h : s.conversation.isSome = true) :
    ensure_conversation o ek env s = Except.ok s := by
  unfold ensure_conversation
  rw [if_pos h]

theorem ensureIter_of_some (o ek : Str) (env : Env) (s : RagSession)
    (h : s.conversation.isSome = true) :
    ∀ n, ensureIter o ek env n s = Except.ok s := by
  intro n
  induction n with
  | zero => rfl
  | succ n ih =>
    rw [ensureIter, ensure_of_some o ek env s h]
    exact ih

/-!
The claim theorems.
-/

/-- C3: whenever the session holds no conversation chain, a submitted
non-blank question never reaches the language model (the chain-called flag
is `false`) and the assistant reply appended to the log is the
status-specific guidance: the missing-key message on `missing_key`, the
add-PDFs message on `no_pdfs`, and the generic not-ready message on every
other status — three pairwise distinct messages. -/
theorem C3_not_ready_guidance (llm : LlmOracle) (q : Str) (s : Session)
    (hq : trimStr q ≠ []) (hc : s.conversation = none) :
    (submitHandler llm true q s).2 = false ∧
    (submitHandler llm true q s).1 = Session.mk
      (s.messages ++ [Msg.mk (("user").data) q,
        Msg.mk (("assistant").data) (guidanceFor s.rag_status)])
      s.conversation s.rag_status ∧
    (s.rag_status = ("missing_key").data → guidanceFor s.rag_status = MSG_KEY) ∧
    (s.rag_status = ("no_pdfs").data → guidanceFor s.rag_status = MSG_PDF) ∧
    (s.rag_status ≠ ("missing_key").data → s.rag_status ≠ ("no_pdfs").data →
      guidanceFor s.rag_status = MSG_GENERIC) ∧
    MSG_KEY ≠ MSG_PDF ∧ MSG_KEY ≠ MSG_GENERIC ∧ MSG_PDF ≠ MSG_GENERIC := by
  have h := submitHandler_none llm q s hq hc
  refine ⟨by rw [h], by rw [h], ?_, ?_, ?_, by decide, by decide, by decide⟩
  · intro h1
    rw [guidanceFor, if_pos h1]
  · intro h2
    rw [guidanceFor, if_neg (by rw [h2]; decide), if_pos h2]
  · intro h1 h2
    rw [guidanceFor, if_neg h1, if_neg h2]

/-- C3 witness: a concrete blocked question in each non-ready status. -/
theorem C3_not_ready_guidance_witness :
    (submitHandler (fun _ _ => Except.ok none) true (("Hi").data)
      (Session.mk [] none (("missing_key").data))).2 = false ∧
    (submitHandler (fun _ _ => Except.ok none) true (("Hi").data)
      (Session.mk [] none (("missing_key").data))).1 = Session.mk
      [Msg.mk (("user").data) (("Hi").data),
        Msg.mk (("assistant").data) MSG_KEY] none (("missing_key").data) ∧
    (submitHandler (fun _ _ => Except.ok none) true (("Hi").data)
      (Session.mk [] none (("init").data))).1 = Session.mk
      [Msg.mk (("user").data) (("Hi").data),
        Msg.mk (("assistant").data) MSG_GENERIC] none (("init").data) := by
  have h1 := C3_not_ready_guidance (fun _ _ => Except.ok none) (("Hi").data)
    (Session.mk [] none (("missing_key").data)) (by decide) rfl
  have h2 := C3_not_ready_guidance (fun _ _ => Except.ok none) (("Hi").data)
    (Session.mk [] none (("init").data)) (by decide) rfl
  refine ⟨h1.1, ?_, ?_⟩
  · rw [h1.2.1]
    rw [h1.2.2.1 rfl]
    rfl
  · rw [h2.2.1]
    rw [h2.2.2.2.2.1 (by decide) (by decide)]
    rfl

/-- C4: in the ready state, an exception from the chain call is caught
inside the submit handler — the log then holds the user's question followed
by an inline `(RAG error: ...)` answer naming the exception, the chain and
status fields are untouched, the chain was indeed called, and a following
question on the same session is processed normally. -/
theorem C4_chain_error (llm : LlmOracle) (q q2 e a : Str) (s : Session) (chain : Chain)
    (hq : trimStr q ≠ []) (hc : s.conversation = some chain)
    (he : llm chain q = Except.error e)
    (hq2 : trimStr q2 ≠ []) (ha : llm chain q2 = Except.ok (some a)) :
    (submitHandler llm true q s).1.messages =
      s.messages ++ [Msg.mk (("user").data) q,
        Msg.mk (("assistant").data) (tidy_response (("(RAG error: ").data ++ e ++ [')']))] ∧
    (submitHandler llm true q s).1.conversation = s.conversation ∧
    (submitHandler llm true q s).1.rag_status = s.rag_status ∧
    (submitHandler llm true q s).2 = true ∧
    (submitHandler llm true q2 (submitHandler llm true q s).1).1.messages =
      (submitHandler llm true q s).1.messages ++ [Msg.mk (("user").data) q2,
        Msg.mk (("assistant").data) (tidy_response a)] := by
  have h1 := submitHandler_some llm q s chain hq hc
  rw [he] at h1
  have hc2 : (submitHandler llm true q s).1.conversation = some chain := by
    rw [h1]
    exact hc
  have h2 := submitHandler_some llm q2 (submitHandler llm true q s).1 chain hq2 hc2
  rw [ha] at h2
  refine ⟨by rw [h1], by rw [h1], by rw [h1], by rw [h1], by rw [h2]; rfl⟩

/-- C4 witness: a concrete failing call followed by a successful one. -/
theorem C4_chain_error_witness :
    (submitHandler
      (fun _ q => if q = ("boom").data then Except.error (("net down").data)
                  else Except.ok (some (("fine").data)))
      true (("boom").data)
      (Session.mk [] (some (make_chain [] (("k").data))) (("ready").data))).1.messages =
      [Msg.mk (("user").data) (("boom").data),
        Msg.mk (("assistant").data)
          (tidy_response (("(RAG error: ").data ++ ("net down").data ++ [')']))] ∧
    (submitHandler
      (fun _ q => if q = ("boom").data then Except.error (("net down").data)
                  else Except.ok (some (("fine").data)))
      true (("ok?").data)
      (submitHandler
        (fun _ q => if q = ("boom").data then Except.error (("net down").data)
                    else Except.ok (some (("fine").data)))
        true (("boom").data)
        (Session.mk [] (some (make_chain [] (("k").data))) (("ready").data))).1).1.messages =
      (submitHandler
        (fun _ q => if q = ("boom").data then Except.error (("net down").data)
                    else Except.ok (some (("fine").data)))
        true (("boom").data)
        (Session.mk [] (some (make_chain [] (("k").data))) (("ready").data))).1.messages ++
      [Msg.mk (("user").data) (("ok?").data),
        Msg.mk (("assistant").data) (tidy_response (("fine").data))] := by
  have h := C4_chain_error
    (fun _ q => if q = ("boom").data then Except.error (("net down").data)
                else Except.ok (some (("fine").data)))
    (("boom").data) (("ok?").data) (("net down").data) (("fine").data)
    (Session.mk [] (some (make_chain [] (("k").data))) (("ready").data))
    (make_chain [] (("k").data))
    (by decide) rfl rfl (by decide) rfl
  exact ⟨h.1, h.2.2.2.2⟩

/-- C9: a non-empty whitespace-only session override shadows the environment
credential — `get_api_key` strips it to the empty string even though the
environment variable holds a non-empty key, so `ensure_conversation` puts
the chainless session into the `missing_key` state. -/
theorem C9_whitespace_override (o ek : Str) (env : Env) (st : RagSession)
    (ho : o ≠ []) (hws : trimStr o = []) (_hek : ek ≠ []) (hconv : st.conversation = none) :
    get_api_key o ek = [] ∧
    ensure_conversation o ek env st =
      Except.ok (RagSession.mk none (("missing_key").data)) := by
  have hk : get_api_key o ek = [] := by
    unfold get_api_key
    rw [if_pos ho, hws]
  refine ⟨hk, ?_⟩
  unfold ensure_conversation
  rw [hconv]
  rw [hk]
  rfl

/-- C9 witness: a blank-space override over a non-empty environment key. -/
theorem C9_whitespace_override_witness :
    get_api_key ((" ").data) (("sk-test").data) = [] ∧
    ensure_conversation ((" ").data) (("sk-test").data)
      (Env.mk false (Except.ok []) [] []) (RagSession.mk none (("init").data)) =
      Except.ok (RagSession.mk none (("missing_key").data)) :=
  C9_whitespace_override ((" ").data) (("sk-test").data)
    (Env.mk false (Except.ok []) [] []) (RagSession.mk none (("init").data))
    (by decide) (by decide) (by decide) rfl

/-- C10: a blank (empty or whitespace-only) question is a no-op — the
handler leaves the whole session untouched, appends nothing, and never calls
the chain, for any submitted flag. -/
theorem C10_blank_question (llm : LlmOracle) (b : Bool) (q : Str) (s : Session)
    (hq : trimStr q = []) :
    submitHandler llm b q s = (s, false) := by
  unfold submitHandler
  rw [if_neg (fun h => h.2 hq)]

theorem buildOrLoad_none_iff (env : Env) (hvs : env.vsExists = false) :
    (buildOrLoad env).result = Except.ok none ↔
      list_pdfs env.cwdEntries = [] ∨
      noExtractableTextB (list_pdfs env.cwdEntries) = true := by
  unfold buildOrLoad
  rw [hvs]
  simp only [Bool.false_eq_true, if_false]
  by_cases hp : list_pdfs env.cwdEntries = []
  · rw [if_pos hp]
    simp [hp]
  · rw [if_neg hp]
    by_cases hd : load_docs_from_files (list_pdfs env.cwdEntries) = []
    · rw [if_pos hd]
      simp only [true_iff]
      exact Or.inr ((load_docs_eq_nil_iff _).mp hd)
    · rw [if_neg hd]
      simp only
      constructor
      · intro habs
        exact absurd habs (by simp)
      · intro hor
        rcases hor with h1 | h1
        · exact absurd h1 hp
        · exact absurd ((load_docs_eq_nil_iff _).mpr h1) hd

/-- C10 witness: a whitespace-only question on a ready session. -/
theorem C10_blank_question_witness :
    submitHandler (fun _ _ => Except.ok (some (("ans").data))) true (("   ").data)
      (Session.mk [] (some (make_chain [] (("k").data))) (("ready").data)) =
      (Session.mk [] (some (make_chain [] (("k").data))) (("ready").data), false) :=
  C10_blank_question (fun _ _ => Except.ok (some (("ans").data))) true (("   ").data)
    (Session.mk [] (some (make_chain [] (("k").data))) (("ready").data)) (by decide)

/-- C1: `build_or_load_vectorstore` (a) loads and returns the persisted
index whenever the storage directory exists — without consulting the PDF
directory listing, whose contents do not affect the outcome; (b) otherwise
returns `None` exactly when the listing has no PDF files or no page strips
to non-whitespace text; (c) otherwise builds the chunk index from the
extracted documents, persists it together with the build metadata, and
returns it. -/
theorem C1_build_or_load (env : Env) (entries : List PdfFile) :
    (env.vsExists = true →
      buildOrLoad env = BuildOutcome.mk (env.loadResult.map some) none none ∧
      buildOrLoad (Env.mk env.vsExists env.loadResult entries env.now) =
        buildOrLoad env) ∧
    (env.vsExists = false →
      ((buildOrLoad env).result = Except.ok none ↔
        list_pdfs env.cwdEntries = [] ∨
        noExtractableTextB (list_pdfs env.cwdEntries) = true)) ∧
    (env.vsExists = false → list_pdfs env.cwdEntries ≠ [] →
      noExtractableTextB (list_pdfs env.cwdEntries) = false →
      buildOrLoad env = BuildOutcome.mk
        (Except.ok (some (split_docs
          (load_docs_from_files (list_pdfs env.cwdEntries)))))
        (some (split_docs (load_docs_from_files (list_pdfs env.cwdEntries))))
        (some (Metadata.mk env.now
          ((list_pdfs env.cwdEntries).map PdfFile.name)))) := by
  refine ⟨?_, ?_, ?_⟩
  · intro hvs
    constructor
    · unfold buildOrLoad
      rw [hvs]
      rfl
    · unfold buildOrLoad
      rw [hvs]
      rfl
  · intro hvs
    exact buildOrLoad_none_iff env hvs
  · intro hvs hp hd
    unfold buildOrLoad
    rw [hvs]
    have hd2 : load_docs_from_files (list_pdfs env.cwdEntries) ≠ [] := by
      intro hx
      rw [load_docs_eq_nil_iff] at hx
      rw [hx] at hd
      cases hd
    simp only [Bool.false_eq_true, if_false]
    rw [if_neg hp, if_neg hd2]

/-- C1 witness: a no-PDF directory yields `None`; one readable PDF with
text yields a built, persisted index. -/
theorem C1_build_or_load_witness :
    (buildOrLoad (Env.mk false (Except.ok []) [] [])).result = Except.ok none ∧
    buildOrLoad (Env.mk false (Except.ok [])
        [PdfFile.mk (("soil.pdf").data) (some [("Soil bearing capacity").data])] []) =
      BuildOutcome.mk
        (Except.ok (some (split_docs (load_docs_from_files (list_pdfs
          [PdfFile.mk (("soil.pdf").data) (some [("Soil bearing capacity").data])])))))
        (some (split_docs (load_docs_from_files (list_pdfs
          [PdfFile.mk (("soil.pdf").data) (some [("Soil bearing capacity").data])]))))
        (some (Metadata.mk []
          ((list_pdfs [PdfFile.mk (("soil.pdf").data)
            (some [("Soil bearing capacity").data])]).map PdfFile.name))) := by
  constructor
  · exact ((C1_build_or_load (Env.mk false (Except.ok []) [] []) []).2.1 rfl).mpr
      (Or.inl rfl)
  · exact (C1_build_or_load (Env.mk false (Except.ok [])
      [PdfFile.mk (("soil.pdf").data) (some [("Soil bearing capacity").data])] [])
      []).2.2 rfl (by decide) (by decide)

/-- C5: a failed load of an existing index directory propagates as that
same distinct error, never as the nothing-available outcome — `None` can
only arise from the no-PDFs or no-extractable-text branches, both of which
presuppose that no persisted index directory exists. -/
theorem C5_load_failure_distinct (env : Env) (e : Str) :
    (env.vsExists = true →
      (buildOrLoad env).result = env.loadResult.map some ∧
      (env.loadResult = Except.error e →
        (buildOrLoad env).result = Except.error e)) ∧
    ((buildOrLoad env).result = Except.ok none →
      env.vsExists = false ∧
      (list_pdfs env.cwdEntries = [] ∨
        noExtractableTextB (list_pdfs env.cwdEntries) = true)) := by
  constructor
  · intro hvs
    constructor
    · unfold buildOrLoad
      rw [hvs]
      rfl
    · intro hle
      unfold buildOrLoad
      rw [hvs, hle]
      rfl
  · intro hok
    by_cases hvs : env.vsExists = true
    · exfalso
      unfold buildOrLoad at hok
      rw [hvs] at hok
      cases hlr : env.loadResult with
      | error e2 => rw [hlr] at hok; cases hok
      | ok idx => rw [hlr] at hok; cases hok
    · have hvs2 : env.vsExists = false := by
        cases h : env.vsExists
        · rfl
        · exact absurd h hvs
      refine ⟨hvs2, ?_⟩
      exact (buildOrLoad_none_iff env hvs2).mp hok

/-- C5 witness: a corrupt-index load error surfaces as that error, and a
concrete `None` outcome pinpoints the no-PDFs branch. -/
theorem C5_load_failure_distinct_witness :
    (buildOrLoad (Env.mk true (Except.error (("corrupt index").data))
        [PdfFile.mk (("soil.pdf").data) (some [("text").data])] [])).result =
      Except.error (("corrupt index").data) ∧
    ((Env.mk false (Except.ok []) [] [] : Env).vsExists = false ∧
      (list_pdfs ([] : List PdfFile) = [] ∨
        noExtractableTextB (list_pdfs ([] : List PdfFile)) = true)) := by
  constructor
  · exact ((C5_load_failure_distinct (Env.mk true (Except.error (("corrupt index").data))
      [PdfFile.mk (("soil.pdf").data) (some [("text").data])] [])
      (("corrupt index").data)).1 rfl).2 rfl
  · exact (C5_load_failure_distinct (Env.mk false (Except.ok []) [] [])
      (("x").data)).2 rfl

/-- C6: `ensure_conversation` is idempotent and safe to repeat — with a
chain already present it changes nothing, so a ready session stays ready
across any number of further calls; a chainless session (`missing_key` or
`no_pdfs`) becomes ready on a later call once a credential and a buildable
index are available; and the rebuild handler is the explicit reset that
replaces the chain. -/
theorem C6_ensure_idempotent (o ek : Str) (env env2 : Env) (s : RagSession)
    (vs : Index) (n : Nat) :
    (s.conversation.isSome = true →
      ensure_conversation o ek env s = Except.ok s ∧
      ensureIter o ek env n s = Except.ok s) ∧
    (s.conversation = none → get_api_key o ek ≠ [] →
      (buildOrLoad env).result = Except.ok (some vs) →
      ensure_conversation o ek env s = Except.ok
        (RagSession.mk (some (make_chain vs (get_api_key o ek))) (("ready").data))) ∧
    (get_api_key o ek ≠ [] →
      (buildOrLoad (Env.mk false env2.loadResult env2.cwdEntries env2.now)).result =
        Except.ok (some vs) →
      rebuild_handler o ek env2 s = Except.ok
        (RagSession.mk (some (make_chain vs (get_api_key o ek))) (("ready").data))) := by
  refine ⟨?_, ?_, ?_⟩
  · intro h
    exact ⟨ensure_of_some o ek env s h, ensureIter_of_some o ek env s h n⟩
  · intro hconv hk hb
    unfold ensure_conversation
    rw [hconv]
    simp only [Option.isSome_none, Bool.false_eq_true, if_false]
    rw [if_neg hk, hb]
  · intro hk hb
    unfold rebuild_handler
    rw [if_neg hk, hb]

/-- C6 witness: a ready session survives three more initialization calls
unchanged; a `no_pdfs` session becomes ready once a PDF is available. -/
theorem C6_ensure_idempotent_witness :
    (ensure_conversation (("k").data) [] (Env.mk false (Except.ok []) [] [])
      (RagSession.mk (some (make_chain [] (("k").data))) (("ready").data)) =
      Except.ok (RagSession.mk (some (make_chain [] (("k").data))) (("ready").data)) ∧
    ensureIter (("k").data) [] (Env.mk false (Except.ok []) [] []) 3
      (RagSession.mk (some (make_chain [] (("k").data))) (("ready").data)) =
      Except.ok (RagSession.mk (some (make_chain [] (("k").data))) (("ready").data))) ∧
    ensure_conversation (("k").data) []
      (Env.mk true (Except.ok [Doc.mk (("t").data) (("a.pdf").data) 1]) [] [])
      (RagSession.mk none (("no_pdfs").data)) =
      Except.ok (RagSession.mk
        (some (make_chain [Doc.mk (("t").data) (("a.pdf").data) 1]
          (get_api_key (("k").data) [])))
        (("ready").data)) := by
  constructor
  · exact (C6_ensure_idempotent (("k").data) [] (Env.mk false (Except.ok []) [] [])
      (Env.mk false (Except.ok []) [] [])
      (RagSession.mk (some (make_chain [] (("k").data))) (("ready").data))
      [] 3).1 rfl
  · exact (C6_ensure_idempotent (("k").data) []
      (Env.mk true (Except.ok [Doc.mk (("t").data) (("a.pdf").data) 1]) [] [])
      (Env.mk true (Except.ok [Doc.mk (("t").data) (("a.pdf").data) 1]) [] [])
      (RagSession.mk none (("no_pdfs").data))
      [Doc.mk (("t").data) (("a.pdf").data) 1] 0).2.1 rfl (by decide) rfl

/-- C7: a page whose extracted text is empty or whitespace-only produces no
Document: a two-page PDF with a blank second page contributes exactly the
page-1 Document, and all its chunks carry page 1; in general every produced
Document has non-whitespace content, carries the file's name, is numbered
by its 1-based page position (strictly increasing), and the Document count
equals the count of non-blank pages. -/
theorem C7_blank_page_skipped (name t ws : Str) (ps : List Str) (d : Doc)
    (hws : trimStr ws = []) (ht : trimStr t ≠ [])
    (hd : d ∈ docsFromPdf (PdfFile.mk name (some ps))) :
    docsFromPdf (PdfFile.mk name (some [t, ws])) = [Doc.mk t name 1] ∧
    (∀ c ∈ split_docs (docsFromPdf (PdfFile.mk name (some [t, ws]))),
      c.page = 1 ∧ c.source = name) ∧
    (d.source = name ∧ trimStr d.content ≠ [] ∧ 1 ≤ d.page ∧ d.page ≤ ps.length ∧
      ps[d.page - 1]? = some d.content) ∧
    (docsFromPdf (PdfFile.mk name (some ps))).length =
      (ps.filter (fun x => !(trimStr x).isEmpty)).length ∧
    (docsFromPdf (PdfFile.mk name (some ps))).Pairwise
      (fun a b => a.page < b.page) := by
  have h1 : docsFromPdf (PdfFile.mk name (some [t, ws])) = [Doc.mk t name 1] := by
    show pagesToDocs name 0 [t, ws] = [Doc.mk t name 1]
    rw [pagesToDocs, if_pos ht, pagesToDocs,
      if_neg (fun hx => hx hws), pagesToDocs]
  refine ⟨h1, ?_, ?_, ?_, ?_⟩
  · intro c hc
    rw [h1] at hc
    obtain ⟨d2, hd2, _, hs2, hp2⟩ := mem_split_docs _ c hc
    rw [List.mem_singleton] at hd2
    subst hd2
    exact ⟨hp2, hs2⟩
  · have := pagesToDocs_mem name 0 ps d hd
    obtain ⟨ha, hb, hc2, hd3, he⟩ := this
    refine ⟨ha, hb, hc2, by simpa using hd3, ?_⟩
    have hk : d.page - 0 - 1 = d.page - 1 := by omega
    rw [hk] at he
    exact he
  · exact pagesToDocs_length name 0 ps
  · exact pagesToDocs_pairwise name 0 ps

/-- C7 witness: the spec's concrete scenario — pages
`["Soil bearing capacity...", ""]`, second page blank. -/
theorem C7_blank_page_skipped_witness :
    docsFromPdf (PdfFile.mk (("a.pdf").data)
      (some [("Soil bearing capacity").data, []])) =
      [Doc.mk (("Soil bearing capacity").data) (("a.pdf").data) 1] ∧
    (docsFromPdf (PdfFile.mk (("a.pdf").data)
      (some [("Soil bearing capacity").data, []]))).length =
      ([("Soil bearing capacity").data, ([] : Str)].filter
        (fun x => !(trimStr x).isEmpty)).length := by
  have h := C7_blank_page_skipped (("a.pdf").data) (("Soil bearing capacity").data)
    [] [("Soil bearing capacity").data, []]
    (Doc.mk (("Soil bearing capacity").data) (("a.pdf").data) 1)
    (by decide) (by decide) (by decide)
  exact ⟨h.1, h.2.2.2.1⟩

/-- C8: with a valid credential and an empty PDF directory and no persisted
index, `build_or_load_vectorstore` returns the no-documents outcome,
initialization lands in `no_pdfs` with no chain, and asking a question
yields the add-PDFs guidance while the chain stays absent and the language
model is never called (the conversation memory does not exist to change). -/
theorem C8_empty_dir_scenario (o ek : Str) (env : Env) (llm : LlmOracle)
    (q : Str) (msgs : List Msg) (st0 : RagSession)
    (hk : get_api_key o ek ≠ []) (hvs : env.vsExists = false)
    (hpdf : list_pdfs env.cwdEntries = []) (hq : trimStr q ≠ [])
    (hconv : st0.conversation = none) :
    (buildOrLoad env).result = Except.ok none ∧
    ensure_conversation o ek env st0 =
      Except.ok (RagSession.mk none (("no_pdfs").data)) ∧
    submitHandler llm true q (Session.mk msgs none (("no_pdfs").data)) =
      (Session.mk (msgs ++ [Msg.mk (("user").data) q,
        Msg.mk (("assistant").data) MSG_PDF]) none (("no_pdfs").data), false) := by
  have hb : (buildOrLoad env).result = Except.ok none :=
    (buildOrLoad_none_iff env hvs).mpr (Or.inl hpdf)
  refine ⟨hb, ?_, ?_⟩
  · unfold ensure_conversation
    rw [hconv]
    simp only [Option.isSome_none, Bool.false_eq_true, if_false]
    rw [if_neg hk, hb]
  · have h := submitHandler_none llm q (Session.mk msgs none (("no_pdfs").data)) hq rfl
    rw [h]
    rw [show guidanceFor (("no_pdfs").data) = MSG_PDF by decide]

/-- C8 witness: concrete empty directory, credential present. -/
theorem C8_empty_dir_scenario_witness :
    (buildOrLoad (Env.mk false (Except.ok []) [] [])).result = Except.ok none ∧
    ensure_conversation (("sk").data) [] (Env.mk false (Except.ok []) [] [])
      (RagSession.mk none (("init").data)) =
      Except.ok (RagSession.mk none (("no_pdfs").data)) ∧
    submitHandler (fun _ _ => Except.ok (some (("ans").data))) true
      (("What is a footing?").data)
      (Session.mk [] none (("no_pdfs").data)) =
      (Session.mk [Msg.mk (("user").data) (("What is a footing?").data),
        Msg.mk (("assistant").data) MSG_PDF] none (("no_pdfs").data), false) := by
  have h := C8_empty_dir_scenario (("sk").data) [] (Env.mk false (Except.ok []) [] [])
    (fun _ _ => Except.ok (some (("ans").data))) (("What is a footing?").data)
    [] (RagSession.mk none (("init").data))
    (by decide) rfl rfl (by decide) rfl
  exact ⟨h.1, h.2.1, h.2.2⟩

set_option maxRecDepth 400000 in
/-- C2 counterexample: on the sample page the Chunker's output is not the
sliding 1000/800 window of the text, and its two consecutive chunks do not
share exactly 200 characters. -/
theorem C2_chunker_counterexample :
    (split_docs [Doc.mk samplePageText (("soil.pdf").data) 1]).map Doc.content ≠
      specSlidingWindowChunks 1000 800 samplePageText ∧
    consecShare 200
      ((split_docs [Doc.mk samplePageText (("soil.pdf").data) 1]).map Doc.content) =
      false ∧
    ((split_docs [Doc.mk samplePageText (("soil.pdf").data) 1]).map Doc.content).length
      = 2 := by
  refine ⟨by decide, by decide, by decide⟩

/-- C2 (amended): the Chunker is langchain's recursive splitter with
`chunk_size = 1000` and `chunk_overlap = 200` — it cuts at separator
boundaries rather than advancing a fixed 800-character stride, and
consecutive chunks from the same page share at most, not exactly, 200
characters' worth of trailing pieces; still, every chunk is at most 1000
characters long and carries the source and page metadata of the Document
it came from. -/
theorem C2_chunker_amended (docs : List Doc) (c : Doc) (hc : c ∈ split_docs docs) :
    c.content.length ≤ 1000 ∧
    ∃ d ∈ docs, c.source = d.source ∧ c.page = d.page := by
  obtain ⟨d, hd, hch, hs, hp⟩ := mem_split_docs docs c hc
  exact ⟨splitTextChunks_bound d.content c.content hch, d, hd, hs, hp⟩

/-- C2 witness: the single chunk of a short page. -/
theorem C2_chunker_amended_witness :
    Doc.mk (("hello").data) (("a.pdf").data) 1 ∈
      split_docs [Doc.mk (("hello").data) (("a.pdf").data) 1] ∧
    ((Doc.mk (("hello").data) (("a.pdf").data) 1).content.length ≤ 1000 ∧
      ∃ d ∈ [Doc.mk (("hello").data) (("a.pdf").data) 1],
        (Doc.mk (("hello").data) (("a.pdf").data) 1).source = d.source ∧
        (Doc.mk (("hello").data) (("a.pdf").data) 1).page = d.page) := by
  refine ⟨by decide, C2_chunker_amended _ _ (by decide)⟩

end GeoChat
